import Mathlib

/-!
# Verification of `mutatex/utils.py`

A shallow embedding of the residue-identification, position-list,
residue-filtering, energy-file, mutation-list, dispatch and file-copy
logic of `mutatex/utils.py`, together with theorems settling the
specification claims about that code.

Conventions:
* Python exceptions are modelled by `Except PyErr`; the error value
  records which exception class the source raises on that path.
* Python strings are Lean `String`s; `s[i]` is `pyCharAt s i`,
  `s[1:]` is `pyDrop s 1`, `str.split("_")` is `pySplit`,
  `str.strip()` is `pyStrip`.
* `sorted(..., key=k)` (a stable sort) is `pySorted` with the boolean
  comparison induced by the key.  `pySorted` is a stable sort, and any
  two stable sorts agree as functions, so this is the same function of
  lists that CPython's `sorted` computes.
* `len(set(xs))` is `xs.dedup.length`; `set(xs).issubset(set(ys))` is
  `xs.all ys.contains`; `list.count(True)` over a comprehension is
  `List.countP`.
* Numeric file contents are modelled over `ℚ` (exact values; the fixed
  `%.5f` text formatting of `numpy.savetxt` is treated as exact, which
  it is for the concrete inputs evaluated here).
-/

/-- Exception classes raised by the Python source. -/
inductive PyErr where
  | ioError
  | typeError
  | indexError
  | keyError
  | valueError
deriving DecidableEq

/-! ## Small Python-semantics helpers -/

/-- `[A-Z]` character class. -/
def isUpperAZ (c : Char) : Bool := 'A' ≤ c && c ≤ 'Z'

/-- `[0-9]` character class (Python `str.isdigit` on ASCII digits). -/
def isDigit09 (c : Char) : Bool := '0' ≤ c && c ≤ '9'

/-- `s[i]` on a Python string; all call sites in the embedding access
an index that exists, so the default is never observed there. -/
def pyCharAt (s : String) (i : Nat) : Char := s.data.getD i (Char.ofNat 0)

/-- Value of a decimal digit string (helper for `int(...)`). -/
def natOfDigits (cs : List Char) : Nat :=
  cs.foldl (fun n c => 10 * n + (c.toNat - 48)) 0

/-- Python `int(s)` on an optionally `-`-signed decimal string. -/
def pyInt (s : String) : Int :=
  match s.data with
  | '-' :: rest => -(natOfDigits rest : Int)
  | cs => (natOfDigits cs : Int)

/-- Lexicographic `≤` on character lists: Python string comparison
(by code point). -/
def lexLeChars : List Char → List Char → Bool
  | [], _ => true
  | _ :: _, [] => false
  | a :: as, b :: bs => if a = b then lexLeChars as bs else decide (a < b)

/-- Python `s <= t` on strings. -/
def strLe (a b : String) : Bool := lexLeChars a.data b.data

/-- Python's whitespace set for `str.strip()` (ASCII). -/
def pyIsSpace (c : Char) : Bool :=
  c = ' ' || c = '\t' || c = '\n' || c = '\r' || c = '\x0b' || c = '\x0c'

/-- `s.strip()`. -/
def pyStrip (s : String) : String :=
  String.mk (((s.data.dropWhile pyIsSpace).reverse.dropWhile pyIsSpace).reverse)

/-- `s.split("_")` on the character list (keeps empty pieces, as
Python's `str.split` with an explicit separator does). -/
def pySplitU : List Char → List (List Char)
  | [] => [[]]
  | c :: cs =>
    if c = '_' then [] :: pySplitU cs
    else
      match pySplitU cs with
      | t :: ts => (c :: t) :: ts
      | [] => [[c]]

/-- `s.split("_")` producing strings. -/
def pySplit (s : String) : List String := (pySplitU s.data).map String.mk

/-- `s[n:]`. -/
def pyDrop (s : String) (n : Nat) : String := String.mk (s.data.drop n)

/-- `s.startswith("#")`. -/
def pyStartsWithHash (s : String) : Bool :=
  match s.data with
  | '#' :: _ => true
  | _ => false

/-- Stable insertion of `a` into `l`: `a` goes in front of the first
element not strictly below it.  `pySorted` below is a stable sort, and
a stable sort is a function of the comparison alone, so this models
Python's (stable) `sorted(..., key=...)` faithfully. -/
def pyInsert (le : α → α → Bool) (a : α) : List α → List α
  | [] => [a]
  | b :: bs =>
    if le b a && !le a b then b :: pyInsert le a bs
    else a :: b :: bs

/-- Python `sorted` with the boolean comparison induced by the key. -/
def pySorted (le : α → α → Bool) : List α → List α
  | [] => []
  | x :: xs => pyInsert le x (pySorted le xs)

/-- Monadic concatMap over `Except`: models a Python `for` loop that
appends to an output list and can raise. -/
def exConcatMap {ε α β : Type} : List α → (α → Except ε (List β)) → Except ε (List β)
  | [], _ => .ok []
  | x :: xs, f => do
    let h ← f x
    let t ← exConcatMap xs f
    pure (h ++ t)

/-! ## PDB structure model

`Bio.PDB` objects are consumed by the source only through model/chain/
residue iteration, `get_id` and `get_resname`; this is the corresponding
object graph.  Chain identifiers are single characters (the PDB format
has a one-column chain id, and the source's sort key `lambda x: x[1]`
relies on that).  `three_to_one` is the external library's residue-name
table, kept abstract (`tto`) in the general theorems. -/

structure PdbResidue where
  resname : String
  resid : Int
deriving DecidableEq

structure PdbChain where
  id : Char
  residues : List PdbResidue
deriving DecidableEq

structure PdbModel where
  chains : List PdbChain
deriving DecidableEq

structure PdbStructure where
  models : List PdbModel
deriving DecidableEq

/-- One-letter sequence of a chain: recognized residues in order,
unrecognized ones skipped (the `try/except` around `three_to_one`). -/
def chainSeq (tto : String → Option Char) (c : PdbChain) : List Char :=
  c.residues.filterMap fun r => tto r.resname

/-- Python `dict` assignment `d[k] = v`: overwrite in place if the key
exists, else append (insertion order preserved). -/
def dictInsert (d : List (Char × List Char)) (k : Char) (v : List Char) :
    List (Char × List Char) :=
  if d.any (fun p => p.1 = k) then
    d.map fun p => if p.1 = k then (k, v) else p
  else d ++ [(k, v)]

/-- The `sequences` dict built from the chains of one model. -/
def sequencesOf (tto : String → Option Char) (m : PdbModel) :
    List (Char × List Char) :=
  m.chains.foldl (fun d c => dictInsert d c.id (chainSeq tto c)) []

/-- The `sequences` dict of `get_foldx_sequence`, built over all models
(each model's pass resets and rewrites its chains' entries). -/
def sequencesAllModels (tto : String → Option Char) (models : List PdbModel) :
    List (Char × List Char) :=
  models.foldl (fun d m => m.chains.foldl (fun d2 c => dictInsert d2 c.id (chainSeq tto c)) d) []

/-- `np.unique(seqs, return_inverse=True)` followed by the
`collated_chains` loop: chain ids grouped by equal sequence, groups in
sorted-unique-sequence order, ids within a group in dict order. -/
def collatedChains (seqd : List (Char × List Char)) : List (List Char) :=
  (pySorted lexLeChars (seqd.map Prod.snd).dedup).map
    fun s => (seqd.filter fun p => p.2 = s).map Prod.fst

/-- `"%s%s%d" % (res_code, c, resid)`. -/
def mkIdent (code : Char) (ch : Char) (rid : Int) : String :=
  String.mk ([code, ch] ++ (toString rid).data)

/-- Sort key of `sorted(..., key=lambda x: x[1])`: the chain character
of an identifier string. -/
def identLe (a b : String) : Bool := decide (pyCharAt a 1 ≤ pyCharAt b 1)

/-- The shared collation/emission block (lines 364–383 and 434–453 of
the source are textually identical): for each homomer group, iterate
over **all** models of the structure and over the residues of the
group's template chain, emitting one sorted identifier tuple per
recognized residue.  `model[cg[0]]` is a keyed lookup that raises
`KeyError` when absent; unpacking an empty `sequences` dict raises
`ValueError` in `zip(*...)`. -/
def collateEmit (tto : String → Option Char) (models : List PdbModel)
    (seqd : List (Char × List Char)) : Except PyErr (List (List String)) :=
  if seqd.isEmpty then .error .valueError
  else
    exConcatMap (collatedChains seqd) fun cg =>
      match cg with
      | [] => .error .indexError
      | c0 :: _ =>
        exConcatMap models fun m =>
          match m.chains.find? (fun c => c.id = c0) with
          | none => .error .keyError
          | some ch => .ok (ch.residues.filterMap fun r =>
              (tto r.resname).map fun code =>
                pySorted identLe (cg.map fun c => mkIdent code c r.resid))

/-- Entries of `get_residue_list`: plain identifier strings in
non-multimer mode, identifier tuples in multimer mode (the Python list
is heterogeneous). -/
inductive ResEntry where
  | str (s : String)
  | tup (t : List String)
deriving DecidableEq

/-- `get_residue_list` (lines 306–388).  Zero models raise `IOError`;
otherwise only the first model feeds the non-multimer list and the
`sequences` dict, while the multimer emission loop runs over the whole
structure. -/
def get_residue_list (tto : String → Option Char) (s : PdbStructure)
    (multimers : Bool) : Except PyErr (List ResEntry) :=
  match s.models with
  | [] => .error .ioError
  | model :: _ =>
    if multimers then
      match collateEmit tto s.models (sequencesOf tto model) with
      | .error e => .error e
      | .ok ts => .ok (ts.map .tup)
    else
      .ok (model.chains.flatMap fun ch =>
        ch.residues.filterMap fun r =>
          (tto r.resname).map fun code => ResEntry.str (mkIdent code ch.id r.resid))

/-- `get_foldx_sequence` (lines 395–455).  No model-count guard; the
sequence dict and the non-multimer list are built over all models. -/
def get_foldx_sequence (tto : String → Option Char) (s : PdbStructure)
    (multimers : Bool) : Except PyErr (List (List String)) :=
  if multimers then
    collateEmit tto s.models (sequencesAllModels tto s.models)
  else
    .ok (s.models.flatMap fun m =>
      m.chains.flatMap fun ch =>
        ch.residues.filterMap fun r =>
          (tto r.resname).map fun code => [mkIdent code ch.id r.resid])

/-- The `Bio.PDB.Polypeptide.three_to_one` table of the external
library (the twenty standard amino acids). -/
def threeToOneTable : List (String × Char) :=
  [("ALA", 'A'), ("CYS", 'C'), ("ASP", 'D'), ("GLU", 'E'), ("PHE", 'F'),
   ("GLY", 'G'), ("HIS", 'H'), ("ILE", 'I'), ("LYS", 'K'), ("LEU", 'L'),
   ("MET", 'M'), ("ASN", 'N'), ("PRO", 'P'), ("GLN", 'Q'), ("ARG", 'R'),
   ("SER", 'S'), ("THR", 'T'), ("VAL", 'V'), ("TRP", 'W'), ("TYR", 'Y')]

/-- `three_to_one` as a partial map (raises, i.e. `none`, off-table). -/
def ttoStd (resname : String) : Option Char :=
  (threeToOneTable.find? fun p => p.1 = resname).map Prod.snd

/-- Keys of `Bio.PDB.Polypeptide.d1_to_index`: the canonical one-letter
amino-acid alphabet used by `parse_mutlist_file`. -/
def d1Keys : List Char :=
  ['A', 'C', 'D', 'E', 'F', 'G', 'H', 'I', 'K', 'L',
   'M', 'N', 'P', 'Q', 'R', 'S', 'T', 'V', 'W', 'Y']

/-! ## Position list parsing (`parse_poslist_file`, lines 172–219)

The anchored regex `(([A-Z]?[A-Z][0-9]+)_?)+` is recognized by the DFA
below: a block is one or two uppercase letters followed by one or more
digits; blocks follow each other directly or across a single
underscore; a trailing underscore is allowed by the pattern. -/

inductive ReSt where
  | start   -- nothing consumed yet / nothing since last block boundary
  | oneL    -- one uppercase letter of the current block consumed
  | twoL    -- two uppercase letters consumed
  | dig     -- inside the digit run of a block (accepting)
  | und     -- just consumed a separating underscore (accepting)
  | dead
deriving DecidableEq

def reStep (st : ReSt) (c : Char) : ReSt :=
  match st with
  | .start => if isUpperAZ c then .oneL else .dead
  | .oneL => if isUpperAZ c then .twoL else if isDigit09 c then .dig else .dead
  | .twoL => if isDigit09 c then .dig else .dead
  | .dig =>
    if isDigit09 c then .dig
    else if isUpperAZ c then .oneL
    else if c = '_' then .und
    else .dead
  | .und => if isUpperAZ c then .oneL else .dead
  | .dead => .dead

/-- `matcher.fullmatch(line.strip())` for the position-list pattern. -/
def poslistFullmatch (cs : List Char) : Bool :=
  match cs.foldl reStep .start with
  | .dig => true
  | .und => true
  | _ => false

/-- The three shape checks of lines 203–205: `len(set([len(x) for x in
residue])) != 1 or len(set(residue)) != len(residue) or
len(set(numbers)) != 1` (negated: `true` means the line passes). -/
def poslistTokensOk (residue : List String) : Bool :=
  ((residue.map String.length).dedup.length = 1) &&
  (residue.dedup.length = residue.length) &&
  ((residue.map fun x => x.data.filter isDigit09).dedup.length = 1)

/-- `s if str.isdigit(s[1]) else s[1:]` — a token of length < 2 would
raise `IndexError` in Python, but every token reaching this line has
passed the shape checks and therefore has length ≥ 2. -/
def poslistNormTok (s : String) : String :=
  match s.data with
  | a :: b :: rest => if isDigit09 b then String.mk (a :: b :: rest) else String.mk (b :: rest)
  | _ => s

/-- `tuple(sorted([... for s in residue]))` (line 217). -/
def poslistNormalize (residue : List String) : List String :=
  pySorted strLe (residue.map poslistNormTok)

/-- Processing of a single line of the position-list file (lines
194–217): regex check, `_` split, shape checks, exact-tuple or
subset-count reconciliation against `unique_residues`, then
normalization.  Every `raise TypeError` is `.error .typeError`. -/
def parse_poslist_line (uniq : List (List String)) (line : String) :
    Except PyErr (List String) :=
  let s := pyStrip line
  if ¬ poslistFullmatch s.data then .error .typeError
  else
    let residue := pySplit s
    if ¬ poslistTokensOk residue then .error .typeError
    else if uniq.contains residue then .ok (poslistNormalize residue)
    else if uniq.countP (fun i => residue.all i.contains) ≠ 1 then .error .typeError
    else .ok (poslistNormalize residue)

/-! ## `filter_reslist` (lines 221–259) -/

/-- `[ x[1:] for x in r ]` — the code-stripped tokens of one residue
group (used as a set). -/
def stripTup (r : List String) : List String := r.map fun x => pyDrop x 1

/-- `set(p).issubset(set(e))`. -/
def tupSubset (p e : List String) : Bool := p.all e.contains

/-- The inner `for i,u in enumerate(reslist)` search with `break`:
first entry whose code-stripped token set contains `p`. -/
def frFind (reslist : List (List String)) (p : List String) :
    Option (List String) :=
  reslist.find? fun u => tupSubset p (stripTup u)

/-- The outer `for p in ref` loop accumulating `filtered_reslist`
(append only if not already present; raise `TypeError` when no entry
matches). -/
def frLoop (reslist : List (List String)) :
    List (List String) → List (List String) → Except PyErr (List (List String))
  | [], acc => .ok acc
  | p :: ps, acc =>
    match frFind reslist p with
    | none => .error .typeError
    | some u => frLoop reslist ps (if acc.contains u then acc else acc ++ [u])

/-- `x[0][1]` of the sort key. -/
def frChain (u : List String) : Char := pyCharAt (u.headD "") 1

/-- `int(x[0][2:])` of the sort key. -/
def frNum (u : List String) : Int := pyInt (pyDrop (u.headD "") 2)

/-- `key=lambda x: (x[0][1], int(x[0][2:]))` compared as a Python
tuple (lexicographically). -/
def frLe (a b : List String) : Bool :=
  decide (frChain a < frChain b) || (frChain a = frChain b && decide (frNum a ≤ frNum b))

/-- `filter_reslist(reslist, ref)`. -/
def filter_reslist (reslist ref : List (List String)) :
    Except PyErr (List (List String)) :=
  (frLoop reslist ref []).map fun l => pySorted frLe l

/-! ## `parse_mutlist_file` (lines 261–304)

The file is modelled as its list of lines (without trailing newlines;
Python's file iteration never yields an empty string, and a blank line
is skipped by both the `if line` test there and the `= ""` test
here). -/

def mutlistStep (acc : Except PyErr (List Char)) (line : String) :
    Except PyErr (List Char) := do
  let acc ← acc
  if line ≠ "" ∧ ¬ pyStartsWithHash line then
    let strLine := pyStrip line
    if strLine.length = 0 then pure acc
    else
      let mtype := pyCharAt (pyStrip line) 0
      if mtype ∉ d1Keys then throw .typeError
      else pure (acc ++ [mtype])
  else pure acc

def parse_mutlist_file (lines : List String) : Except PyErr (List Char) := do
  let restypes ← lines.foldl mutlistStep (.ok [])
  if restypes.dedup.length ≠ restypes.length then throw .typeError
  -- an empty result is only logged, not raised
  else pure restypes

/-! ## Energy files (`parse_ddg_file`, lines 136–170, and
`save_energy_file`, lines 670–717)

A text file of numbers is modelled as its list of rows (rational
values).  `np.loadtxt` with the default `ndmin=0` squeezes singleton
axes: a 1×1 file loads as a 0-d scalar, a single row or a single
column loads as a 1-d vector. -/

inductive NpArr where
  | scalar (x : ℚ)
  | vec (v : List ℚ)
  | mat (m : List (List ℚ))
deriving DecidableEq

/-- `np.loadtxt` on a (rectangular, comment-stripped) matrix of rows. -/
def npLoadtxt (rows : List (List ℚ)) : NpArr :=
  match rows with
  | [[x]] => .scalar x
  | [r] => .vec r
  | _ =>
    if rows.all (fun r => r.length = 1) then .vec (rows.map fun r => r.headD 0)
    else .mat rows

/-- `.T` on a rectangular 2-d array, written by column index (numpy
transpose); 0-d and 1-d arrays are unchanged by `.T`. -/
def matT (m : List (List ℚ)) : List (List ℚ) :=
  (List.range (m.headD []).length).map fun j => m.map fun r => r.getD j 0

def npT : NpArr → NpArr
  | .scalar x => .scalar x
  | .vec v => .vec v
  | .mat m => .mat (matT m)

/-- `ddgs.shape[1]`: raises `IndexError` on arrays of dimension < 2. -/
def npShape1 : NpArr → Except PyErr Nat
  | .scalar _ => .error .indexError
  | .vec _ => .error .indexError
  | .mat m => .ok (m.headD []).length

/-- `ddgs[0]`: first row of a 2-d array, first element of a 1-d array;
indexing a 0-d array (or an empty axis) raises `IndexError`. -/
def npRow0 : NpArr → Except PyErr NpArr
  | .scalar _ => .error .indexError
  | .vec [] => .error .indexError
  | .vec (x :: _) => .ok (.scalar x)
  | .mat [] => .error .indexError
  | .mat (r :: _) => .ok (.vec r)

/-- `if len(ddgs.shape) == 1: ddgs = np.expand_dims(ddgs, 1)` — a 1-d
array becomes a single-column 2-d matrix. -/
def npExpand1 : NpArr → NpArr
  | .vec v => .mat (v.map fun x => [x])
  | a => a

/-- `parse_ddg_file(fname, reslist, full)`; the file is given as its
rows, `reslist` only enters through `len(reslist)`. -/
def parse_ddg_file (rows : List (List ℚ)) (reslist : Option Nat)
    (full : Bool) : Except PyErr NpArr :=
  let ddgs := npExpand1 (npT (npLoadtxt rows))
  match reslist with
  | some n =>
    match npShape1 ddgs with
    | .error e => .error e
    | .ok cols =>
      if cols ≠ n then .error .typeError
      else if full then .ok ddgs else npRow0 ddgs
  | none => if full then .ok ddgs else npRow0 ddgs

/-- `np.average(data, axis=1)` on one row. -/
def npAvg (r : List ℚ) : ℚ := r.sum / (r.length : ℚ)

/-- `save_energy_file(fname, data, do_avg=True, do_std=False,
do_min=False, do_max=False, axis=1)`: `out = [np.average(data, axis=1)]`
transposed is the single-column matrix of row averages; the returned
value is the list of numeric rows written to the file (the `# avg`
header is a comment line, which `np.loadtxt` skips on re-read). -/
def save_energy_file_avg (data : List (List ℚ)) : List (List ℚ) :=
  data.map fun r => [npAvg r]

/-! ## Parallel dispatch (`foldx_worker`, `parallel_foldx_run`,
lines 589–629)

A `FoldXRun` is consumed only through its `name` and the boolean its
`run()` returns; the latter is modelled as the field `result`.
`ThreadPool.imap_unordered` yields every worker result exactly once in
an unspecified completion order, and `list(result)` after
`close`/`join` collects them all, so the observable outcomes of
`parallel_foldx_run` are exactly the permutations of the mapped
worker results; the worker bound `np` only limits concurrency. -/

structure FoldXRun where
  name : String
  result : Bool
deriving DecidableEq

/-- `foldx_worker(run)` returns `(run.name, run.run())`. -/
def foldx_worker (run : FoldXRun) : String × Bool := (run.name, run.result)

/-- `out` is a possible return value of `parallel_foldx_run(runs, np)`. -/
def parallel_foldx_run_outcome (np : Nat) (runs : List FoldXRun)
    (out : List (String × Bool)) : Prop :=
  out.Perm (runs.map foldx_worker)

/-! ## `safe_cp` (lines 479–524)

The filesystem queries of the source are abstracted into the booleans
they return at call time; `copyOk`/`linkOk` say whether the external
`shutil.copyfile`/`os.symlink` call succeeds (its failure is caught
and re-raised as `IOError`).  The returned action records the only
write the call performs; `.error` paths perform no write at all, and
the `dolink` branch raises **before** attempting the symlink whenever
the destination exists. -/

inductive CpAction where
  | nothing   -- early return: same absolute path
  | copied    -- shutil.copyfile executed
  | linked    -- os.symlink executed
deriving DecidableEq

def safe_cp (pathEq srcExists srcIsFile dstExists : Bool)
    (dolink copyOk linkOk : Bool) : Except PyErr CpAction :=
  if pathEq then .ok .nothing
  else if ¬ srcExists then .error .ioError
  else if ¬ srcIsFile then .error .ioError
  else if ¬ dolink then
    -- an existing destination is only warned about, then overwritten
    if copyOk then .ok .copied else .error .ioError
  else if dstExists then .error .ioError
  else if linkOk then .ok .linked else .error .ioError

/-! ## Derived layout of `parse_ddg_file` and concrete instances -/

/-- Closed form of the 2-D matrix `parse_ddg_file` works with for a
rectangular, non-1×1 input: a single-column file is left as the
written rows (the 1-D load is re-expanded along axis 1), any other
file is transposed. -/
def ddgLayout (rows : List (List ℚ)) : List (List ℚ) :=
  if 2 ≤ rows.length ∧ (rows.headD []).length = 1 then rows else matT rows

/-- A two-chain homodimer structure used to instantiate the multimer
theorems: chains `A` and `B` share the sequence `AG`; the `XXX`
residue is not in the `three_to_one` table and is skipped. -/
def chainA : PdbChain := ⟨'A', [⟨"ALA", 1⟩, ⟨"GLY", 2⟩, ⟨"XXX", 3⟩]⟩

def chainB : PdbChain := ⟨'B', [⟨"ALA", 1⟩, ⟨"GLY", 2⟩]⟩

def modelAB : PdbModel := ⟨[chainA, chainB]⟩

def structAB : PdbStructure := ⟨[modelAB]⟩

/-- Five named runs for the dispatcher instance. -/
def runs5 : List FoldXRun :=
  [⟨"r1", true⟩, ⟨"r2", false⟩, ⟨"r3", true⟩, ⟨"r4", true⟩, ⟨"r5", false⟩]

/-- The dispatcher instance's results listed in reversed completion
order (a permutation of the submission order). -/
def out5 : List (String × Bool) :=
  [("r5", false), ("r4", true), ("r3", true), ("r2", false), ("r1", true)]

/-! ## Library lemmas about the sorting and deduplication helpers -/

theorem pyInsert_perm (le : α → α → Bool) (a : α) :
    ∀ l : List α, (pyInsert le a l).Perm (a :: l)
  | [] => List.Perm.refl _
  | b :: bs => by
    unfold pyInsert
    by_cases h : (le b a && !le a b) = true
    · simp only [h, if_pos]
      exact ((pyInsert_perm le a bs).cons b).trans (List.Perm.swap a b bs)
    · simp only [h, if_neg]
      exact List.Perm.refl _

theorem pySorted_perm (le : α → α → Bool) : ∀ l : List α, (pySorted le l).Perm l
  | [] => List.Perm.refl _
  | x :: xs =>
    (pyInsert_perm le x (pySorted le xs)).trans ((pySorted_perm le xs).cons x)

theorem pySorted_length (le : α → α → Bool) (l : List α) :
    (pySorted le l).length = l.length :=
  (pySorted_perm le l).length_eq

theorem mem_pyInsert {le : α → α → Bool} {a x : α} {l : List α} :
    x ∈ pyInsert le a l ↔ x = a ∨ x ∈ l := by
  constructor
  · intro h
    have := (pyInsert_perm le a l).mem_iff.mp h
    simpa using this
  · intro h
    apply (pyInsert_perm le a l).mem_iff.mpr
    simpa using h


theorem pyInsert_cons_pos {le : α → α → Bool} {a b : α} {bs : List α}
    (h : (le b a && !le a b) = true) :
    pyInsert le a (b :: bs) = b :: pyInsert le a bs := by
  simp only [pyInsert, h, if_pos]

theorem pyInsert_cons_neg {le : α → α → Bool} {a b : α} {bs : List α}
    (h : ¬ (le b a && !le a b) = true) :
    pyInsert le a (b :: bs) = a :: b :: bs := by
  simp only [pyInsert, if_neg h]

theorem pyInsert_pairwise {le : α → α → Bool}
    (htrans : ∀ a b c, le a b = true → le b c = true → le a c = true)
    (htotal : ∀ a b, le a b = true ∨ le b a = true)
    {a : α} : ∀ {l : List α}, l.Pairwise (fun x y => le x y = true) →
      (pyInsert le a l).Pairwise (fun x y => le x y = true)
  | [], _ => by simp [pyInsert]
  | b :: bs, h => by
    rw [List.pairwise_cons] at h
    by_cases hb : (le b a && !le a b) = true
    · rw [pyInsert_cons_pos hb]
      rw [List.pairwise_cons]
      refine ⟨?_, pyInsert_pairwise htrans htotal h.2⟩
      intro x hx
      rcases mem_pyInsert.mp hx with rfl | hx
      · exact (Bool.and_eq_true_iff.mp hb).1
      · exact h.1 x hx
    · rw [pyInsert_cons_neg hb]
      have hab : le a b = true := by
        rcases htotal a b with hab | hba
        · exact hab
        · by_cases hab2 : le a b = true
          · exact hab2
          · exfalso
            apply hb
            simp [hba, hab2]
      rw [List.pairwise_cons]
      refine ⟨?_, List.pairwise_cons.mpr h⟩
      intro x hx
      rcases List.mem_cons.mp hx with rfl | hx
      · exact hab
      · exact htrans a b x hab (h.1 x hx)

theorem pySorted_pairwise {le : α → α → Bool}
    (htrans : ∀ a b c, le a b = true → le b c = true → le a c = true)
    (htotal : ∀ a b, le a b = true ∨ le b a = true) :
    ∀ l : List α, (pySorted le l).Pairwise (fun x y => le x y = true)
  | [] => List.Pairwise.nil
  | x :: xs => pyInsert_pairwise htrans htotal (pySorted_pairwise htrans htotal xs)

/-- A sort result is determined by the multiset whenever no two
distinct elements compare equal: two sorted permutations of each other
coincide. -/
theorem sorted_perm_unique {le : α → α → Bool}
    (htrans : ∀ a b c, le a b = true → le b c = true → le a c = true)
    {l₁ l₂ : List α} (hp : l₁.Perm l₂)
    (hs₁ : l₁.Pairwise fun x y => le x y = true)
    (hs₂ : l₂.Pairwise fun x y => le x y = true)
    (hk : l₁.Pairwise fun x y => ¬(le x y = true ∧ le y x = true)) :
    l₁ = l₂ := by
  let r : α → α → Prop := fun x y => (le x y = true ∧ ¬ le y x = true) ∨ x = y
  have anti : ∀ x y, r x y → r y x → x = y := by
    intro x y hxy hyx
    rcases hxy with ⟨h1, h2⟩ | rfl
    · rcases hyx with ⟨h3, _⟩ | h
      · exact absurd h3 h2
      · exact h.symm
    · rfl
  have hk₂ : l₂.Pairwise fun x y => ¬(le x y = true ∧ le y x = true) := by
    refine (hp.pairwise_iff ?_).mp hk
    intro x y h hc
    exact h ⟨hc.2, hc.1⟩
  have hrs₁ : l₁.Pairwise r := by
    have hand := List.Pairwise.and hs₁ hk
    exact hand.imp fun {x y} h => Or.inl ⟨h.1, fun hyx => h.2 ⟨h.1, hyx⟩⟩
  have hrs₂ : l₂.Pairwise r := by
    have hand := List.Pairwise.and hs₂ hk₂
    exact hand.imp fun {x y} h => Or.inl ⟨h.1, fun hyx => h.2 ⟨h.1, hyx⟩⟩
  exact @List.eq_of_perm_of_sorted _ r ⟨anti⟩ _ _ hp hrs₁ hrs₂

/-- All elements of a nonempty list equal to `e` make it dedup to `[e]`. -/
theorem dedup_const {β : Type} [DecidableEq β] {l : List β} (e : β)
    (hl : l ≠ []) (h : ∀ a ∈ l, a = e) : l.dedup = [e] := by
  induction l with
  | nil => exact absurd rfl hl
  | cons x xs ih =>
    have hx : x = e := h x (List.mem_cons_self _ _)
    subst hx
    by_cases hxs : xs = []
    · subst hxs; simp
    · have hxmem : x ∈ xs := by
        rcases xs with - | ⟨y, ys⟩
        · exact absurd rfl hxs
        · have hy : y = x := (h y (by simp)).trans (h x (List.mem_cons_self _ _)).symm
          simp [hy]
      rw [List.dedup_cons_of_mem hxmem]
      exact ih hxs fun a ha => h a (List.mem_cons_of_mem _ ha)

theorem dedup_length_eq_one_iff {β : Type} [DecidableEq β] {l : List β}
    (hl : l ≠ []) : l.dedup.length = 1 ↔ ∀ a ∈ l, ∀ b ∈ l, a = b := by
  constructor
  · intro h a ha b hb
    rcases List.length_eq_one.mp h with ⟨e, he⟩
    have h1 : a = e := by
      have hm := List.mem_dedup.mpr ha
      rw [he] at hm; simpa using hm
    have h2 : b = e := by
      have hm := List.mem_dedup.mpr hb
      rw [he] at hm; simpa using hm
    rw [h1, h2]
  · intro h
    rcases l with - | ⟨x, xs⟩
    · exact absurd rfl hl
    · rw [dedup_const x hl fun a ha => h a ha x (List.mem_cons_self _ _)]
      rfl

theorem dedup_length_eq_iff {β : Type} [DecidableEq β] {l : List β} :
    l.dedup.length = l.length ↔ l.Nodup := by
  constructor
  · intro h
    rw [← List.dedup_eq_self]
    exact (List.dedup_sublist l).eq_of_length h
  · intro h
    rw [List.dedup_eq_self.mpr h]

/-- `find?` returns the element a predicate singles out. -/
theorem find?_eq_some_of_unique {p : α → Bool} :
    ∀ {l : List α} {r : α}, r ∈ l → (∀ u ∈ l, (p u = true ↔ u = r)) →
      l.find? p = some r := by
  intro l
  induction l with
  | nil => intro r hr _; simp at hr
  | cons a as ih =>
    intro r hr hu
    by_cases hpa : p a = true
    · have ha : a = r := (hu a (List.mem_cons_self _ _)).mp hpa
      subst ha
      simp [List.find?_cons_of_pos, hpa]
    · have har : a ≠ r := by
        rintro rfl
        exact hpa ((hu a (List.mem_cons_self _ _)).mpr rfl)
      have hr2 : r ∈ as := by
        rcases List.mem_cons.mp hr with rfl | h
        · exact absurd rfl har
        · exact h
      rw [List.find?_cons_of_neg _ hpa]
      exact ih hr2 fun u hu2 => hu u (List.mem_cons_of_mem _ hu2)

/-- Folding the "append if not already present" accumulator over a
duplicate-free list of fresh elements just appends the list. -/
theorem foldl_dedup_append {β : Type} [BEq β] [LawfulBEq β] :
    ∀ (l : List β) (acc : List β), l.Nodup → (∀ x ∈ l, ¬ x ∈ acc) →
      l.foldl (fun a r => if a.contains r then a else a ++ [r]) acc = acc ++ l := by
  intro l
  induction l with
  | nil => intro acc _ _; simp
  | cons x xs ih =>
    intro acc hnd hfresh
    have hx : acc.contains x = false := by
      simp only [List.contains, List.elem_eq_mem, decide_eq_false_iff_not]
      exact hfresh x (List.mem_cons_self _ _)
    rw [List.foldl_cons, hx]
    simp only [Bool.false_eq_true, if_neg, reduceCtorEq, not_false_eq_true]
    rw [ih (acc ++ [x]) (List.Nodup.of_cons hnd) ?_]
    · simp
    · intro y hy
      simp only [List.mem_append, List.mem_singleton]
      rintro (h | rfl)
      · exact hfresh y (List.mem_cons_of_mem _ hy) h
      · exact (List.nodup_cons.mp hnd).1 hy

/-! ## Claim theorems -/

/-- C3: the claim says `get_residue_list` emits identifiers from the
first model only, and raises on zero models.  The zero-model half is
right (`IOError`), and non-multimer mode does read only the first
model; but in multimer mode the emission loop `for model in structure`
runs over every model, so a two-model structure with one chain `A`
holding the single residue `ALA 1` yields the group `("AA1",)` twice —
once per model — contradicting the warning the code itself logs
("only the first will be used"). -/
theorem get_residue_list_multimodel_bug :
    get_residue_list ttoStd ⟨[⟨[⟨'A', [⟨"ALA", 1⟩]⟩]⟩, ⟨[⟨'A', [⟨"ALA", 1⟩]⟩]⟩]⟩ true
      = .ok [.tup ["AA1"], .tup ["AA1"]] ∧
    get_residue_list ttoStd ⟨[⟨[⟨'A', [⟨"ALA", 1⟩]⟩]⟩, ⟨[⟨'A', [⟨"ALA", 1⟩]⟩]⟩]⟩ false
      = .ok [.str "AA1"] ∧
    get_residue_list ttoStd ⟨[]⟩ true = .error .ioError ∧
    get_residue_list ttoStd ⟨[]⟩ false = .error .ioError :=
  ⟨rfl, rfl, rfl, rfl⟩

/-- C5: writing the 2×2 matrix `[[0, 2], [4, 6]]` with avg-only
`save_energy_file` produces the single-column file `[[1], [5]]`;
`np.loadtxt` squeezes it to the 1-D `[1, 5]`, and the
`expand_dims(..., 1)` step turns that into the 2×1 matrix
`[[1], [5]]`, whose first row is `[1]`.  So `parse_ddg_file(...,
full=False)` returns only the first average instead of the row-average
vector `[1, 5]` the claim promises (and that the function's own
docstring promises: "just the averages column"). -/
theorem energy_roundtrip_single_column_bug :
    parse_ddg_file (save_energy_file_avg [[0, 2], [4, 6]]) none false = .ok (.vec [1]) ∧
    [[(0 : ℚ), 2], [4, 6]].map npAvg = [1, 5] ∧
    (Except.ok (.vec [1]) : Except PyErr NpArr) ≠ .ok (.vec [1, 5]) := by
  refine ⟨?_, ?_, ?_⟩
  · have h : parse_ddg_file (save_energy_file_avg [[0, 2], [4, 6]]) none false
        = .ok (.vec [npAvg [0, 2]]) := rfl
    rw [h]
    norm_num [npAvg]
  · simp [npAvg]
    norm_num
  · intro h
    have := (Except.ok.injEq _ _).mp h
    simp at this

/-- C6: `parse_mutlist_file` keeps only the first character of each
non-empty non-comment line without case folding (`"ARN"` contributes
`'A'`); lowercase `"a"` is not in the canonical alphabet and raises
`TypeError` while `"A"` is accepted; two lines whose first characters
coincide raise the duplicate `TypeError`; an input yielding no codes
returns `[]` without raising; a `#` comment line is skipped. -/
theorem parse_mutlist_first_char_checks :
    parse_mutlist_file ["ARN"] = .ok ['A'] ∧
    parse_mutlist_file ["a"] = .error .typeError ∧
    parse_mutlist_file ["A"] = .ok ['A'] ∧
    parse_mutlist_file ["A", "AV"] = .error .typeError ∧
    parse_mutlist_file [] = .ok [] ∧
    parse_mutlist_file ["#x", "C"] = .ok ['C'] :=
  ⟨rfl, rfl, rfl, rfl, rfl, rfl⟩

/-- C10: `safe_cp` with `dolink=True` raises `IOError` when the
destination exists (before attempting the symlink, so the destination
is untouched), with `dolink=False` it overwrites an existing
destination without raising (only a warning is logged) whenever the
copy itself succeeds, and when source and destination have the same
absolute path it returns immediately without copying — even if the
source does not exist. -/
theorem safe_cp_behavior :
    (∀ copyOk linkOk, safe_cp false true true true true copyOk linkOk = .error .ioError) ∧
    (∀ linkOk, safe_cp false true true true false true linkOk = .ok .copied) ∧
    (∀ srcExists srcIsFile dstExists dolink copyOk linkOk,
      safe_cp true srcExists srcIsFile dstExists dolink copyOk linkOk = .ok .nothing) :=
  ⟨fun _ _ => rfl, fun _ => rfl, fun _ _ _ _ _ _ => rfl⟩

/-- C2 counterexample: against the canonical group `("AA12", "AB12")`,
the line `A12_B12` has code-stripped token set `{A12, B12}`, which is
a subset of the group's code-stripped token set for exactly one group
— so the claim says it must be accepted — yet `parse_poslist_file`
raises `TypeError` on it, because the code's `set(residue).issubset(
set(i))` test compares the raw line tokens against the code-bearing
canonical identifiers without stripping. -/
theorem parse_poslist_chain_only_line_rejected :
    (List.countP
        (fun i => (pySplit (pyStrip "A12_B12")).all fun t => (i.map fun x => pyDrop x 1).contains t)
        [["AA12", "AB12"]] = 1) ∧
    parse_poslist_line [["AA12", "AB12"]] "A12_B12" = .error .typeError :=
  ⟨rfl, rfl⟩

/-- C4 counterexample: with `reslist = [("AA12", "AB12"), ("AA12",)]`
and `ref` its full code-stripped token sets, the singleton group's
reference entry `("A12",)` matches the *first* entry (its stripped set
is nested inside), so `("AA12",)` is never added: the result is
`[("AA12", "AB12")]`, not `reslist` sorted as the claim states. -/
theorem filter_reslist_nested_group_dropped :
    filter_reslist [["AA12", "AB12"], ["AA12"]]
        ([["AA12", "AB12"], ["AA12"]].map stripTup) = .ok [["AA12", "AB12"]] ∧
    (["AA12"] ∈ [["AA12", "AB12"], ["AA12"]] ∧ ["AA12"] ∉ [["AA12", "AB12"]]) :=
  ⟨rfl, by decide⟩

/-- C8 counterexample: the line `A12_AB12` passes the whole-line regex
and its two tokens have identical digit suffixes (`12`), hence equal
digit-suffix lengths and equal numeric values, and are distinct
strings — the claim says it proceeds without a format error — yet the
code's check compares whole-token lengths (`len(x)`), which differ
(3 vs 4), so the line raises `TypeError` regardless of the canonical
residue list. -/
theorem poslist_token_full_length_check :
    poslistFullmatch (pyStrip "A12_AB12").data = true ∧
    pySplit (pyStrip "A12_AB12") = ["A12", "AB12"] ∧
    ("A12".data.filter isDigit09 = ['1', '2'] ∧
     "AB12".data.filter isDigit09 = ['1', '2'] ∧
     "A12" ≠ "AB12") ∧
    poslistTokensOk ["A12", "AB12"] = false ∧
    parse_poslist_line [["A12", "AB12"]] "A12_AB12" = .error .typeError :=
  ⟨rfl, rfl, ⟨rfl, rfl, by decide⟩, rfl, rfl⟩

/-- C9 counterexample: a 1×1 energy file loads as a 0-d array
(`np.loadtxt` squeezes both singleton axes), so the `ddgs.shape[1]`
size check and the `ddgs[0]` summary access raise `IndexError`
rather than behaving as the claim describes, even when the expected
entry count (1) matches the single value; with `full=True` the
returned value is the 0-d scalar, not a 2-D matrix. -/
theorem parse_ddg_scalar_file_indexerror :
    parse_ddg_file [[(5 : ℚ)]] (some 1) false = .error .indexError ∧
    parse_ddg_file [[(5 : ℚ)]] none false = .error .indexError ∧
    parse_ddg_file [[(5 : ℚ)]] none true = .ok (.scalar 5) :=
  ⟨rfl, rfl, rfl⟩

/-- Counting occurrences of an element of a duplicate-free list. -/
theorem countP_eq_one_of_mem_nodup {α : Type} [DecidableEq α] :
    ∀ {l : List α}, l.Nodup → ∀ {r : α}, r ∈ l →
      l.countP (fun u => decide (u = r)) = 1 := by
  intro l
  induction l with
  | nil => intro _ r hr; simp at hr
  | cons a as ih =>
    intro hnd r hr
    have hnd2 := List.nodup_cons.mp hnd
    by_cases har : a = r
    · subst har
      rw [List.countP_cons_of_pos _ _ (by simp)]
      have hz : as.countP (fun u => decide (u = a)) = 0 := by
        rw [List.countP_eq_zero]
        intro u hu
        simp only [decide_eq_true_eq]
        rintro rfl
        exact hnd2.1 hu
      rw [hz]
    · rw [List.countP_cons_of_neg _ _ (by simpa using har)]
      rcases List.mem_cons.mp hr with rfl | hr2
      · exact absurd rfl har
      · exact ih hnd2.2 hr2

/-- C7: whatever completion order the pool produces, the collected
list of `parallel_foldx_run` has exactly one `(name, success)` pair
per submitted run — assuming the run names are distinct, each input
run's name occurs exactly once, paired with the boolean its `run()`
returned — independently of the worker bound. -/
theorem parallel_foldx_run_complete (np : Nat) (runs : List FoldXRun)
    (out : List (String × Bool))
    (h : parallel_foldx_run_outcome np runs out)
    (hn : (runs.map FoldXRun.name).Nodup) :
    out.length = runs.length ∧
    ∀ fr ∈ runs,
      out.countP (fun q => decide (q = (fr.name, fr.result))) = 1 ∧
      (out.map Prod.fst).countP (fun s => decide (s = fr.name)) = 1 := by
  have hperm : out.Perm (runs.map foldx_worker) := h
  constructor
  · rw [hperm.length_eq, List.length_map]
  · intro fr hfr
    have hwnodup : (runs.map foldx_worker).Nodup := by
      apply List.Nodup.of_map (f := Prod.fst)
      rw [List.map_map]
      exact hn
    constructor
    · rw [hperm.countP_eq]
      exact countP_eq_one_of_mem_nodup hwnodup
        (List.mem_map_of_mem foldx_worker hfr)
    · have hmapperm : (out.map Prod.fst).Perm (runs.map FoldXRun.name) := by
        have hm := hperm.map Prod.fst
        rwa [List.map_map] at hm
      rw [hmapperm.countP_eq]
      exact countP_eq_one_of_mem_nodup hn (List.mem_map_of_mem FoldXRun.name hfr)

/-- Witness for C7: five runs dispatched with worker bound 2 and
collected in reversed completion order still give exactly five pairs,
one per run name. -/
theorem parallel_foldx_run_complete_witness :
    out5.length = runs5.length ∧
    ∀ fr ∈ runs5,
      out5.countP (fun q => decide (q = (fr.name, fr.result))) = 1 ∧
      (out5.map Prod.fst).countP (fun s => decide (s = fr.name)) = 1 :=
  parallel_foldx_run_complete 2 runs5 out5
    (show out5.Perm (runs5.map foldx_worker) by decide) (by decide)

/-- `set(p).issubset(set(i))` is membership of every token. -/
theorem all_contains_eq (residue i : List String) :
    (residue.all fun t => i.contains t) = decide (∀ t ∈ residue, t ∈ i) := by
  rw [Bool.eq_iff_iff]
  simp [List.all_eq_true, List.contains, List.elem_iff]

/-- `str.split` never returns an empty token list. -/
theorem pySplitU_ne_nil : ∀ cs : List Char, pySplitU cs ≠ []
  | [] => by simp [pySplitU]
  | c :: cs => by
    unfold pySplitU
    by_cases h : c = '_'
    · simp [h]
    · rw [if_neg h]
      cases pySplitU cs <;> simp

theorem pySplit_ne_nil (s : String) : pySplit s ≠ [] := by
  unfold pySplit
  intro h
  exact pySplitU_ne_nil s.data (by simpa using h)

/-- C2 amended: for a line that passes the regex and shape checks and
is not exactly one of the canonical tuples, `parse_poslist_file`
accepts it if and only if its **raw** token set (no code stripping on
either side) is contained in the raw token set of exactly one
canonical residue group, normalizing it to the sorted code-stripped
tuple; with zero or several containing groups it raises `TypeError`.
In particular a chain-only line such as `A12_B12` is *rejected*
against code-bearing canonical groups (see the counterexample), while
a code-bearing partial line such as `AA12` is accepted. -/
theorem parse_poslist_partial_subset_amended (uniq : List (List String)) (line : String)
    (hre : poslistFullmatch (pyStrip line).data = true)
    (hok : poslistTokensOk (pySplit (pyStrip line)) = true)
    (hmem : ¬ pySplit (pyStrip line) ∈ uniq) :
    (uniq.countP (fun i => decide (∀ t ∈ pySplit (pyStrip line), t ∈ i)) = 1 →
      parse_poslist_line uniq line = .ok (poslistNormalize (pySplit (pyStrip line)))) ∧
    (uniq.countP (fun i => decide (∀ t ∈ pySplit (pyStrip line), t ∈ i)) ≠ 1 →
      parse_poslist_line uniq line = .error .typeError) := by
  have hcode : uniq.countP (fun i => (pySplit (pyStrip line)).all fun t => i.contains t)
      = uniq.countP (fun i => decide (∀ t ∈ pySplit (pyStrip line), t ∈ i)) := by
    apply List.countP_congr
    intro i _
    rw [all_contains_eq]
  have e1 : parse_poslist_line uniq line =
      (if uniq.countP (fun i => (pySplit (pyStrip line)).all fun t => i.contains t) ≠ 1
       then .error .typeError
       else .ok (poslistNormalize (pySplit (pyStrip line)))) := by
    unfold parse_poslist_line
    rw [if_neg (by simp [hre]), if_neg (by simp [hok]),
      if_neg (by simpa [List.contains, List.elem_iff] using hmem)]
  rw [e1, hcode]
  constructor
  · intro hcnt
    rw [if_neg (by simpa using hcnt)]
  · intro hcnt
    rw [if_pos hcnt]

/-- C2 witness: the code-bearing partial line `AA12` against canonical
`[("AA12", "AB12")]` is accepted and normalized to `("A12",)`. -/
theorem parse_poslist_partial_subset_amended_witness :
    parse_poslist_line [["AA12", "AB12"]] "AA12" = .ok ["A12"] :=
  (parse_poslist_partial_subset_amended [["AA12", "AB12"]] "AA12" rfl rfl
    (by decide)).1 (by decide)

/-- `len(set(map f l)) == 1` says `f` is constant on the (nonempty) list. -/
theorem map_dedup_length_one_iff {β : Type} [DecidableEq β] {l : List α}
    (f : α → β) (hl : l ≠ []) :
    ((l.map f).dedup.length = 1) ↔ ∀ a ∈ l, ∀ b ∈ l, f a = f b := by
  rw [dedup_length_eq_one_iff (fun hmap => hl (by simpa using hmap))]
  constructor
  · intro h a ha b hb
    exact h (f a) (List.mem_map_of_mem f ha) (f b) (List.mem_map_of_mem f hb)
  · intro h x hx y hy
    rcases List.mem_map.mp hx with ⟨a, ha, rfl⟩
    rcases List.mem_map.mp hy with ⟨b, hb, rfl⟩
    exact h a ha b hb

/-- C8 amended: for a regex-passing line, the shape check of lines
203–205 passes exactly when the `_`-split tokens all have the same
**whole-token** length (not merely the same digit-suffix length), all
carry the identical digit substring, and are pairwise distinct; when
it fails the line raises `TypeError`.  The original claim's three
conditions follow from the code's check (identical digit substrings
have equal length and equal numeric value), but not conversely: the
whole-token length comparison also involves the chain/code letters
(see the counterexample `A12_AB12`). -/
theorem poslist_token_checks_amended (uniq : List (List String)) (line : String)
    (hre : poslistFullmatch (pyStrip line).data = true) :
    (poslistTokensOk (pySplit (pyStrip line)) = true ↔
      ((∀ a ∈ pySplit (pyStrip line), ∀ b ∈ pySplit (pyStrip line), a.length = b.length) ∧
       (∀ a ∈ pySplit (pyStrip line), ∀ b ∈ pySplit (pyStrip line),
          a.data.filter isDigit09 = b.data.filter isDigit09) ∧
       (pySplit (pyStrip line)).Nodup)) ∧
    (poslistTokensOk (pySplit (pyStrip line)) = false →
      parse_poslist_line uniq line = .error .typeError) ∧
    (poslistTokensOk (pySplit (pyStrip line)) = true →
      ∀ a ∈ pySplit (pyStrip line), ∀ b ∈ pySplit (pyStrip line),
        (a.data.filter isDigit09).length = (b.data.filter isDigit09).length ∧
        natOfDigits (a.data.filter isDigit09) = natOfDigits (b.data.filter isDigit09)) := by
  have hne : pySplit (pyStrip line) ≠ [] := pySplit_ne_nil _
  have hiff : poslistTokensOk (pySplit (pyStrip line)) = true ↔
      ((∀ a ∈ pySplit (pyStrip line), ∀ b ∈ pySplit (pyStrip line), a.length = b.length) ∧
       (∀ a ∈ pySplit (pyStrip line), ∀ b ∈ pySplit (pyStrip line),
          a.data.filter isDigit09 = b.data.filter isDigit09) ∧
       (pySplit (pyStrip line)).Nodup) := by
    unfold poslistTokensOk
    rw [Bool.and_eq_true, Bool.and_eq_true]
    rw [decide_eq_true_iff, decide_eq_true_iff, decide_eq_true_iff]
    rw [map_dedup_length_one_iff String.length hne,
      map_dedup_length_one_iff (fun x => x.data.filter isDigit09) hne,
      dedup_length_eq_iff]
    constructor
    · rintro ⟨⟨h1, h2⟩, h3⟩
      exact ⟨h1, h3, h2⟩
    · rintro ⟨h1, h3, h2⟩
      exact ⟨⟨h1, h2⟩, h3⟩
  refine ⟨hiff, ?_, ?_⟩
  · intro hfail
    unfold parse_poslist_line
    rw [if_neg (by simp [hre]), if_pos (by simp [hfail])]
  · intro hok a ha b hb
    have hdig := (hiff.mp hok).2.1 a ha b hb
    exact ⟨by rw [hdig], by rw [hdig]⟩

/-- C8 witness: the line `A1_B1` passes the shape check, and its
tokens indeed have equal whole-token lengths, identical digit
substrings (hence equal suffix lengths and numeric values), and are
distinct. -/
theorem poslist_token_checks_amended_witness :
    (poslistTokensOk (pySplit (pyStrip "A1_B1")) = true ↔
      ((∀ a ∈ pySplit (pyStrip "A1_B1"), ∀ b ∈ pySplit (pyStrip "A1_B1"), a.length = b.length) ∧
       (∀ a ∈ pySplit (pyStrip "A1_B1"), ∀ b ∈ pySplit (pyStrip "A1_B1"),
          a.data.filter isDigit09 = b.data.filter isDigit09) ∧
       (pySplit (pyStrip "A1_B1")).Nodup)) ∧
    (poslistTokensOk (pySplit (pyStrip "A1_B1")) = false →
      parse_poslist_line [["A1", "B1"]] "A1_B1" = .error .typeError) ∧
    (poslistTokensOk (pySplit (pyStrip "A1_B1")) = true →
      ∀ a ∈ pySplit (pyStrip "A1_B1"), ∀ b ∈ pySplit (pyStrip "A1_B1"),
        (a.data.filter isDigit09).length = (b.data.filter isDigit09).length ∧
        natOfDigits (a.data.filter isDigit09) = natOfDigits (b.data.filter isDigit09)) :=
  poslist_token_checks_amended [["A1", "B1"]] "A1_B1" rfl

theorem range_map_getD {γ : Type} (l : List γ) (d : γ) :
    (List.range l.length).map (fun j => l.getD j d) = l := by
  induction l with
  | nil => simp
  | cons x xs ih =>
    rw [List.length_cons, List.range_succ_eq_map, List.map_cons, List.map_map]
    simp only [List.getD_cons_zero, Function.comp_def, List.getD_cons_succ]
    rw [ih]

/-- Transpose of a single row is the column of its entries. -/
theorem matT_single (r : List ℚ) : matT [r] = r.map fun q => [q] := by
  unfold matT
  have h1 : ([r].headD []).length = r.length := rfl
  rw [h1]
  have h2 : ∀ j, ([r].map fun row => row.getD j 0) = [r.getD j 0] := fun j => rfl
  calc (List.range r.length).map (fun j => [r].map fun row => row.getD j 0)
      = (List.range r.length).map (fun j => [r.getD j 0]) := by
        apply List.map_congr_left
        intro j _
        exact h2 j
    _ = ((List.range r.length).map (fun j => r.getD j 0)).map (fun q => [q]) := by
        rw [List.map_map]
        rfl
    _ = r.map fun q => [q] := by rw [range_map_getD]

/-- Evaluation of `parse_ddg_file` once the loaded array is a
nonempty 2-d matrix. -/
theorem parse_ddg_run (rows : List (List ℚ)) (M : List (List ℚ))
    (row0 : List ℚ) (Mrest : List (List ℚ))
    (hexp : npExpand1 (npT (npLoadtxt rows)) = .mat M)
    (hM : M = row0 :: Mrest) :
    parse_ddg_file rows none true = .ok (.mat M) ∧
    parse_ddg_file rows none false = .ok (.vec row0) ∧
    ∀ n : Nat,
      (row0.length = n →
        parse_ddg_file rows (some n) true = .ok (.mat M) ∧
        parse_ddg_file rows (some n) false = .ok (.vec row0)) ∧
      (row0.length ≠ n →
        parse_ddg_file rows (some n) true = .error .typeError ∧
        parse_ddg_file rows (some n) false = .error .typeError) := by
  subst hM
  refine ⟨?_, ?_, ?_⟩
  · unfold parse_ddg_file
    rw [hexp]
    rfl
  · unfold parse_ddg_file
    rw [hexp]
    rfl
  · intro n
    constructor
    · intro hn
      constructor
      · unfold parse_ddg_file
        rw [hexp]
        simp only [npShape1, List.headD_cons]
        rw [if_neg (by simp [hn])]
        simp
      · unfold parse_ddg_file
        rw [hexp]
        simp only [npShape1, List.headD_cons]
        rw [if_neg (by simp [hn])]
        simp [npRow0]
    · intro hn
      constructor
      · unfold parse_ddg_file
        rw [hexp]
        simp only [npShape1, List.headD_cons]
        rw [if_pos (by simpa using hn)]
      · unfold parse_ddg_file
        rw [hexp]
        simp only [npShape1, List.headD_cons]
        rw [if_pos (by simpa using hn)]

/-- `np.loadtxt` on a file of at least two rows takes the
squeeze-to-vector branch exactly when every row has one entry. -/
theorem npLoadtxt_cons2 (r1 r2 : List ℚ) (rest : List (List ℚ)) :
    npLoadtxt (r1 :: r2 :: rest) =
      if ((r1 :: r2 :: rest).all fun r => r.length = 1)
      then .vec ((r1 :: r2 :: rest).map fun r => r.headD 0)
      else .mat (r1 :: r2 :: rest) := by
  rcases r1 with - | ⟨x, xt⟩
  · rfl
  · rcases xt with - | ⟨y, yt⟩ <;> rfl

/-- C9 amended: for a rectangular numeric file that is not 1×1 (at
least two rows or at least two columns — a 1×1 file loads as a 0-d
array and raises `IndexError`, see the counterexample),
`parse_ddg_file` works with the 2-D matrix `ddgLayout rows`: the
loaded matrix transposed, with a 1-D load re-expanded to a single
column; with `reslist` given it raises `TypeError` exactly when that
matrix's column count differs from `len(reslist)`; it returns the
first row for `full=False` and the whole matrix for `full=True`. -/
theorem parse_ddg_shape_amended (rows : List (List ℚ)) (c : Nat)
    (hrect : ∀ r ∈ rows, r.length = c) (hr : 1 ≤ rows.length) (hc : 1 ≤ c)
    (h11 : 2 ≤ rows.length ∨ 2 ≤ c) :
    ∃ M, M = ddgLayout rows ∧ M ≠ [] ∧
      parse_ddg_file rows none true = .ok (.mat M) ∧
      parse_ddg_file rows none false = .ok (.vec (M.headD [])) ∧
      ∀ n : Nat,
        ((M.headD []).length = n →
          parse_ddg_file rows (some n) true = .ok (.mat M) ∧
          parse_ddg_file rows (some n) false = .ok (.vec (M.headD []))) ∧
        ((M.headD []).length ≠ n →
          parse_ddg_file rows (some n) true = .error .typeError ∧
          parse_ddg_file rows (some n) false = .error .typeError) := by
  rcases rows with - | ⟨r1, rrest⟩
  · simp at hr
  rcases rrest with - | ⟨r2, rrest2⟩
  · -- single row; h11 forces at least two columns
    have hc2 : 2 ≤ c := by
      rcases h11 with h | h
      · simp at h
      · exact h
    have hr1 : r1.length = c := hrect r1 (List.mem_cons_self _ _)
    rcases r1 with - | ⟨x, r1t⟩
    · rw [List.length_nil] at hr1; omega
    rcases r1t with - | ⟨y, r1t2⟩
    · rw [List.length_cons, List.length_nil] at hr1; omega
    -- loaded as a 1-D row, expanded to a single column
    have hexp : npExpand1 (npT (npLoadtxt [x :: y :: r1t2]))
        = .mat ((x :: y :: r1t2).map fun q => [q]) := rfl
    have hlay : ddgLayout [x :: y :: r1t2] = (x :: y :: r1t2).map fun q => [q] := by
      unfold ddgLayout
      rw [if_neg (by simp)]
      exact matT_single _
    have hrun := parse_ddg_run [x :: y :: r1t2] ((x :: y :: r1t2).map fun q => [q])
      [x] ((y :: r1t2).map fun q => [q]) hexp rfl
    exact ⟨(x :: y :: r1t2).map fun q => [q], hlay.symm, by simp,
      hrun.1, hrun.2.1, hrun.2.2⟩
  · -- at least two rows
    by_cases hc1 : c = 1
    · -- single-column file: loads 1-D, re-expanded to the rows themselves
      subst hc1
      have hall : ((r1 :: r2 :: rrest2).all fun r => r.length = 1) = true := by
        rw [List.all_eq_true]
        intro r hrr
        simpa using hrect r hrr
      have hexp : npExpand1 (npT (npLoadtxt (r1 :: r2 :: rrest2)))
          = .mat (r1 :: r2 :: rrest2) := by
        rw [npLoadtxt_cons2, if_pos hall]
        show NpArr.mat (((r1 :: r2 :: rrest2).map fun r => r.headD 0).map fun q => [q])
          = .mat (r1 :: r2 :: rrest2)
        rw [List.map_map]
        have hsame : ((r1 :: r2 :: rrest2).map ((fun q => [q]) ∘ fun r => r.headD 0))
            = (r1 :: r2 :: rrest2).map id := by
          apply List.map_congr_left
          intro r hrr
          rcases List.length_eq_one.mp (hrect r hrr) with ⟨a, rfl⟩
          rfl
        rw [hsame, List.map_id]
      have hlay : ddgLayout (r1 :: r2 :: rrest2) = r1 :: r2 :: rrest2 := by
        unfold ddgLayout
        rw [if_pos]
        constructor
        · simp
        · simpa using hrect r1 (List.mem_cons_self _ _)
      have hrun := parse_ddg_run (r1 :: r2 :: rrest2) (r1 :: r2 :: rrest2) r1 (r2 :: rrest2)
        hexp rfl
      exact ⟨r1 :: r2 :: rrest2, hlay.symm, by simp, hrun.1, hrun.2.1, hrun.2.2⟩
    · -- at least two rows and at least two columns: plain transpose
      have hc2 : 2 ≤ c := by omega
      have hall : ((r1 :: r2 :: rrest2).all fun r => r.length = 1) = false := by
        rw [Bool.eq_false_iff]
        intro hab
        have h1 := List.all_eq_true.mp hab r1 (List.mem_cons_self _ _)
        have h2 := hrect r1 (List.mem_cons_self _ _)
        simp only [decide_eq_true_eq] at h1
        omega
      have hexp : npExpand1 (npT (npLoadtxt (r1 :: r2 :: rrest2)))
          = .mat (matT (r1 :: r2 :: rrest2)) := by
        rw [npLoadtxt_cons2, if_neg (by simp [hall])]
        rfl
      have hlay : ddgLayout (r1 :: r2 :: rrest2) = matT (r1 :: r2 :: rrest2) := by
        unfold ddgLayout
        rw [if_neg]
        rintro ⟨-, habs⟩
        have h2 := hrect r1 (List.mem_cons_self _ _)
        simp only [List.headD_cons] at habs
        omega
      obtain ⟨m, rfl⟩ : ∃ m, c = m + 1 := ⟨c - 1, by omega⟩
      have hmatT : matT (r1 :: r2 :: rrest2)
          = ((r1 :: r2 :: rrest2).map fun r => r.getD 0 0)
            :: ((List.range m).map fun j => (r1 :: r2 :: rrest2).map fun r => r.getD (j + 1) 0) := by
        unfold matT
        have hh : ((r1 :: r2 :: rrest2).headD []).length = m + 1 := by
          simpa using hrect r1 (List.mem_cons_self _ _)
        rw [hh, List.range_succ_eq_map, List.map_cons, List.map_map]
        rfl
      have hrun := parse_ddg_run (r1 :: r2 :: rrest2) (matT (r1 :: r2 :: rrest2))
        ((r1 :: r2 :: rrest2).map fun r => r.getD 0 0)
        ((List.range m).map fun j => (r1 :: r2 :: rrest2).map fun r => r.getD (j + 1) 0)
        hexp hmatT
      rw [hmatT] at hrun
      refine ⟨((r1 :: r2 :: rrest2).map fun r => r.getD 0 0)
          :: ((List.range m).map fun j => (r1 :: r2 :: rrest2).map fun r => r.getD (j + 1) 0),
        by rw [hlay, hmatT], by simp, hrun.1, ?_, ?_⟩
      · simp only [List.headD_cons]
        exact hrun.2.1
      · simp only [List.headD_cons]
        exact hrun.2.2

/-- C9 witness: the 2×2 file `[[1, 2], [3, 4]]` is transposed to
`[[1, 3], [2, 4]]`, validated against `len(reslist)`, and summarized
by its first row. -/
theorem parse_ddg_shape_amended_witness :
    ∃ M, M = ddgLayout [[(1 : ℚ), 2], [3, 4]] ∧ M ≠ [] ∧
      parse_ddg_file [[(1 : ℚ), 2], [3, 4]] none true = .ok (.mat M) ∧
      parse_ddg_file [[(1 : ℚ), 2], [3, 4]] none false = .ok (.vec (M.headD [])) ∧
      ∀ n : Nat,
        ((M.headD []).length = n →
          parse_ddg_file [[(1 : ℚ), 2], [3, 4]] (some n) true = .ok (.mat M) ∧
          parse_ddg_file [[(1 : ℚ), 2], [3, 4]] (some n) false = .ok (.vec (M.headD []))) ∧
        ((M.headD []).length ≠ n →
          parse_ddg_file [[(1 : ℚ), 2], [3, 4]] (some n) true = .error .typeError ∧
          parse_ddg_file [[(1 : ℚ), 2], [3, 4]] (some n) false = .error .typeError) :=
  parse_ddg_shape_amended [[(1 : ℚ), 2], [3, 4]] 2
    (by decide) (by decide) (by decide) (by decide)

theorem tupSubset_iff (p e : List String) :
    tupSubset p e = true ↔ ∀ t ∈ p, t ∈ e := by
  unfold tupSubset
  rw [show (p.all e.contains) = p.all fun t => e.contains t from rfl, all_contains_eq]
  exact decide_eq_true_iff

theorem tupSubset_refl (p : List String) : tupSubset p p = true :=
  (tupSubset_iff p p).mpr fun _ ht => ht

/-- Under pairwise non-nesting of the code-stripped token sets, an
entry's stripped set is contained only in its own. -/
theorem frH1_unique_match {reslist : List (List String)}
    (H1 : reslist.Pairwise fun a b =>
      tupSubset (stripTup a) (stripTup b) = false ∧
      tupSubset (stripTup b) (stripTup a) = false)
    {r u : List String} (hr : r ∈ reslist) (hu : u ∈ reslist) :
    tupSubset (stripTup r) (stripTup u) = true ↔ u = r := by
  constructor
  · intro hsub
    by_contra hne
    have hsymm : Symmetric (fun a b : List String =>
        tupSubset (stripTup a) (stripTup b) = false ∧
        tupSubset (stripTup b) (stripTup a) = false) := by
      intro x y h
      exact ⟨h.2, h.1⟩
    have hpair := H1.forall hsymm hu hr hne
    rw [hpair.2] at hsub
    exact Bool.false_ne_true hsub
  · rintro rfl
    exact tupSubset_refl _

theorem frH1_nodup {reslist : List (List String)}
    (H1 : reslist.Pairwise fun a b =>
      tupSubset (stripTup a) (stripTup b) = false ∧
      tupSubset (stripTup b) (stripTup a) = false) :
    reslist.Nodup := by
  apply H1.imp
  intro a b hab
  rintro rfl
  rw [tupSubset_refl] at hab
  simp at hab

theorem frFind_of_perm {reslist B : List (List String)}
    (H1 : reslist.Pairwise fun a b =>
      tupSubset (stripTup a) (stripTup b) = false ∧
      tupSubset (stripTup b) (stripTup a) = false)
    (hB : B.Perm reslist) {r : List String} (hr : r ∈ reslist) :
    frFind B (stripTup r) = some r := by
  unfold frFind
  apply find?_eq_some_of_unique (hB.mem_iff.mpr hr)
  intro u hu
  exact frH1_unique_match H1 hr (hB.mem_iff.mp hu)

/-- Evaluation of the `for p in ref` loop when every reference entry
is the stripped token set of an entry of `reslist` and the searched
list is a permutation of `reslist`. -/
theorem frLoop_eval {reslist B : List (List String)}
    (H1 : reslist.Pairwise fun a b =>
      tupSubset (stripTup a) (stripTup b) = false ∧
      tupSubset (stripTup b) (stripTup a) = false)
    (hB : B.Perm reslist) :
    ∀ (rs acc : List (List String)), (∀ r ∈ rs, r ∈ reslist) →
      frLoop B (rs.map stripTup) acc
        = .ok (rs.foldl (fun a r => if a.contains r then a else a ++ [r]) acc) := by
  intro rs
  induction rs with
  | nil => intro acc _; rfl
  | cons r rest ih =>
    intro acc hmem
    rw [List.map_cons]
    show frLoop B (stripTup r :: rest.map stripTup) acc = _
    unfold frLoop
    rw [frFind_of_perm H1 hB (hmem r (List.mem_cons_self _ _))]
    rw [List.foldl_cons]
    exact ih _ fun x hx => hmem x (List.mem_cons_of_mem _ hx)

theorem frLe_iff (a b : List String) :
    frLe a b = true ↔
      (frChain a < frChain b ∨ (frChain a = frChain b ∧ frNum a ≤ frNum b)) := by
  unfold frLe
  simp [Bool.or_eq_true, Bool.and_eq_true, decide_eq_true_eq]

theorem frLe_trans : ∀ a b c : List String,
    frLe a b = true → frLe b c = true → frLe a c = true := by
  intro a b c hab hbc
  rw [frLe_iff] at hab hbc ⊢
  rcases hab with h1 | ⟨h1, h1n⟩
  · rcases hbc with h2 | ⟨h2, h2n⟩
    · exact Or.inl (h1.trans h2)
    · exact Or.inl (h2 ▸ h1)
  · rcases hbc with h2 | ⟨h2, h2n⟩
    · exact Or.inl (h1 ▸ h2)
    · exact Or.inr ⟨h1.trans h2, h1n.trans h2n⟩

theorem frLe_total : ∀ a b : List String, frLe a b = true ∨ frLe b a = true := by
  intro a b
  rw [frLe_iff, frLe_iff]
  rcases lt_trichotomy (frChain a) (frChain b) with h | h | h
  · exact Or.inl (Or.inl h)
  · rcases le_total (frNum a) (frNum b) with hn | hn
    · exact Or.inl (Or.inr ⟨h, hn⟩)
    · exact Or.inr (Or.inr ⟨h.symm, hn⟩)
  · exact Or.inr (Or.inl h)

/-- Two entries comparing `≤` in both directions share the sort key. -/
theorem frLe_antisymm_key {a b : List String}
    (h1 : frLe a b = true) (h2 : frLe b a = true) :
    (frChain a, frNum a) = (frChain b, frNum b) := by
  rw [frLe_iff] at h1 h2
  rcases h1 with hlt1 | ⟨hc1, hn1⟩
  · rcases h2 with hlt2 | ⟨hc2, hn2⟩
    · exact absurd hlt1 (lt_asymm hlt2)
    · exact absurd hlt1 (by rw [hc2]; exact lt_irrefl _)
  · rcases h2 with hlt2 | ⟨hc2, hn2⟩
    · exact absurd hlt2 (by rw [hc1]; exact lt_irrefl _)
    · rw [Prod.mk.injEq]
      exact ⟨hc1, le_antisymm hn1 hn2⟩

/-- C4 amended: when the code-stripped token sets of the entries of
`reslist` are pairwise non-nested (in particular there are no
duplicate entries) and the sort keys `(x[0][1], int(x[0][2:]))` are
pairwise distinct, `filter_reslist` applied with `ref` equal to the
full reduced token list of `reslist` succeeds and returns exactly the
entries of `reslist` ordered by chain id and then by residue number
compared as an integer; the result is invariant under permuting
`reslist` (with its derived `ref`), and re-applying `filter_reslist`
to the result with the same `ref` returns it unchanged.  Without the
non-nesting hypothesis an entry can be swallowed by a superset entry
(see the counterexample), and without distinct keys the output order
of tied entries follows input order, breaking permutation
invariance. -/
theorem filter_reslist_sorted_amended (reslist : List (List String))
    (H1 : reslist.Pairwise fun a b =>
      tupSubset (stripTup a) (stripTup b) = false ∧
      tupSubset (stripTup b) (stripTup a) = false)
    (H2 : reslist.Pairwise fun a b => (frChain a, frNum a) ≠ (frChain b, frNum b)) :
    ∃ L, filter_reslist reslist (reslist.map stripTup) = .ok L ∧
      L.Perm reslist ∧
      L.Pairwise (fun a b => frChain a < frChain b ∨ (frChain a = frChain b ∧ frNum a ≤ frNum b)) ∧
      (∀ rl2, rl2.Perm reslist → filter_reslist rl2 (rl2.map stripTup) = .ok L) ∧
      filter_reslist L (reslist.map stripTup) = .ok L := by
  have hnd : reslist.Nodup := frH1_nodup H1
  have heval : ∀ B rs : List (List String), B.Perm reslist → rs.Nodup →
      (∀ r ∈ rs, r ∈ reslist) →
      filter_reslist B (rs.map stripTup) = .ok (pySorted frLe rs) := by
    intro B rs hB hrsnd hrs
    unfold filter_reslist
    rw [frLoop_eval H1 hB rs [] hrs,
      foldl_dedup_append rs [] hrsnd (by simp), List.nil_append]
    rfl
  have hkeys : ∀ l2 : List (List String), l2.Perm reslist →
      l2.Pairwise fun a b => ¬(frLe a b = true ∧ frLe b a = true) := by
    intro l2 h2p
    have base : reslist.Pairwise fun a b => ¬(frLe a b = true ∧ frLe b a = true) :=
      H2.imp fun {a b} hne hcon => hne (frLe_antisymm_key hcon.1 hcon.2)
    exact (h2p.pairwise_iff fun {x y} h hc => h ⟨hc.2, hc.1⟩).mpr base
  have hperm : (pySorted frLe reslist).Perm reslist := pySorted_perm _ _
  have hsorted : (pySorted frLe reslist).Pairwise fun a b => frLe a b = true :=
    pySorted_pairwise frLe_trans frLe_total _
  refine ⟨pySorted frLe reslist,
    heval reslist reslist (List.Perm.refl _) hnd (fun _ h => h), hperm,
    hsorted.imp fun {a b} h => (frLe_iff a b).mp h, ?_, ?_⟩
  · intro rl2 h2p
    have h2nd : rl2.Nodup := (h2p.nodup_iff).mpr hnd
    rw [heval rl2 rl2 h2p h2nd fun r hr => h2p.mem_iff.mp hr]
    congr 1
    apply sorted_perm_unique frLe_trans
    · exact ((pySorted_perm frLe rl2).trans h2p).trans hperm.symm
    · exact pySorted_pairwise frLe_trans frLe_total _
    · exact hsorted
    · exact hkeys _ ((pySorted_perm frLe rl2).trans h2p)
  · exact heval (pySorted frLe reslist) reslist hperm hnd fun _ h => h

/-- C4 witness: for `reslist = [("YA10",), ("CA9",)]` the hypotheses
hold (disjoint stripped sets `{A10}`, `{A9}`; distinct keys), and the
returned list is the sorted `[("CA9",), ("YA10",)]` — residue number 9
before 10, compared as integers. -/
theorem filter_reslist_sorted_amended_witness :
    (∃ L, filter_reslist [["YA10"], ["CA9"]] ([["YA10"], ["CA9"]].map stripTup) = .ok L ∧
      L.Perm [["YA10"], ["CA9"]] ∧
      L.Pairwise (fun a b => frChain a < frChain b ∨ (frChain a = frChain b ∧ frNum a ≤ frNum b)) ∧
      (∀ rl2, rl2.Perm [["YA10"], ["CA9"]] →
        filter_reslist rl2 (rl2.map stripTup) = .ok L) ∧
      filter_reslist L ([["YA10"], ["CA9"]].map stripTup) = .ok L) ∧
    filter_reslist [["YA10"], ["CA9"]] ([["YA10"], ["CA9"]].map stripTup)
      = .ok [["CA9"], ["YA10"]] :=
  ⟨filter_reslist_sorted_amended [["YA10"], ["CA9"]] (by decide) (by decide), rfl⟩

/-! ## Lemmas for the multimer residue identification -/

theorem exConcatMap_singleton {ε α β : Type} (x : α) (f : α → Except ε (List β)) :
    exConcatMap [x] f = f x := by
  show (do
    let h ← f x
    let t ← exConcatMap ([] : List α) f
    pure (h ++ t) : Except ε (List β)) = f x
  cases hfx : f x with
  | error e => rfl
  | ok l =>
    show Except.ok (l ++ []) = Except.ok l
    rw [List.append_nil]

/-- Building the `sequences` dict over chains with fresh, pairwise
distinct ids appends one entry per chain in order. -/
theorem dict_foldl_append (tto : String → Option Char) :
    ∀ (chains : List PdbChain) (acc : List (Char × List Char)),
      (∀ c ∈ chains, acc.any (fun p => p.1 = c.id) = false) →
      (chains.map PdbChain.id).Nodup →
      chains.foldl (fun d c => dictInsert d c.id (chainSeq tto c)) acc
        = acc ++ chains.map fun c => (c.id, chainSeq tto c) := by
  intro chains
  induction chains with
  | nil => intro acc _ _; simp
  | cons c cs ih =>
    intro acc hfresh hnd
    rw [List.foldl_cons]
    have h1 : dictInsert acc c.id (chainSeq tto c) = acc ++ [(c.id, chainSeq tto c)] := by
      unfold dictInsert
      rw [if_neg (by simp [hfresh c (List.mem_cons_self _ _)])]
    rw [List.map_cons] at hnd
    have hnd2 := List.nodup_cons.mp hnd
    rw [h1, ih (acc ++ [(c.id, chainSeq tto c)]) ?_ hnd2.2]
    · simp
    · intro c2 hc2
      rw [List.any_append]
      have hacc : acc.any (fun p => p.1 = c2.id) = false :=
        hfresh c2 (List.mem_cons_of_mem _ hc2)
      have hone : ([(c.id, chainSeq tto c)].any fun p => p.1 = c2.id) = false := by
        have hne : c.id ≠ c2.id := by
          intro hcc
          exact hnd2.1 (hcc ▸ List.mem_map_of_mem PdbChain.id hc2)
        simp [hne]
      rw [hacc, hone]
      rfl

/-- Collation of a constant-sequence dict is the single group of all
chain ids, in dict order. -/
theorem collatedChains_const (ids : List Char) (S : List Char) (hne : ids ≠ []) :
    collatedChains (ids.map fun i => (i, S)) = [ids] := by
  unfold collatedChains
  have h1 : ((ids.map fun i => (i, S)).map Prod.snd) = ids.map fun _ => S := by
    rw [List.map_map]
    rfl
  have h2 : (ids.map fun _ => S).dedup = [S] := by
    apply dedup_const S (by simpa using hne)
    intro a ha
    rcases List.mem_map.mp ha with ⟨i, -, rfl⟩
    rfl
  rw [h1, h2]
  show ([S].map fun s => ((ids.map fun i => (i, S)).filter fun p => p.2 = s).map Prod.fst) = [ids]
  rw [List.map_singleton]
  have h3 : ((ids.map fun i => (i, S)).filter fun p => decide (p.2 = S))
      = ids.map fun i => (i, S) := by
    rw [List.filter_eq_self]
    intro p hp
    rcases List.mem_map.mp hp with ⟨i, -, rfl⟩
    simp
  rw [h3, List.map_map]
  have h4 : (Prod.fst ∘ fun i : Char => (i, S)) = id := rfl
  rw [h4, List.map_id]

theorem length_filterMap_map {γ β : Type} (l : List γ) (f : γ → Option Char)
    (g : γ → Char → β) :
    (l.filterMap fun r => (f r).map (g r)).length = (l.filterMap f).length := by
  induction l with
  | nil => rfl
  | cons x xs ih =>
    cases hfx : f x <;> simp [List.filterMap_cons, hfx, ih]

theorem identLe_trans : ∀ a b c : String,
    identLe a b = true → identLe b c = true → identLe a c = true := by
  intro a b c
  unfold identLe
  simp only [decide_eq_true_eq]
  exact le_trans

theorem identLe_total : ∀ a b : String, identLe a b = true ∨ identLe b a = true := by
  intro a b
  unfold identLe
  simp only [decide_eq_true_eq]
  exact le_total _ _

/-- Evaluation of the collation/emission block for a single-model
structure whose chains all share one sequence: one group holding
every chain, one tuple per recognized residue of the first chain. -/
theorem collateEmit_homomer (tto : String → Option Char)
    (c0 : PdbChain) (rest : List PdbChain)
    (hid : (((c0 :: rest).map PdbChain.id)).Nodup)
    (hseq : ∀ c ∈ c0 :: rest, chainSeq tto c = chainSeq tto c0) :
    collateEmit tto [⟨c0 :: rest⟩] (sequencesOf tto ⟨c0 :: rest⟩)
      = .ok (c0.residues.filterMap fun r =>
          (tto r.resname).map fun code =>
            pySorted identLe ((c0 :: rest).map fun c => mkIdent code c.id r.resid)) := by
  have hseqd : sequencesOf tto ⟨c0 :: rest⟩
      = ((c0 :: rest).map PdbChain.id).map fun i => (i, chainSeq tto c0) := by
    unfold sequencesOf
    rw [dict_foldl_append tto (c0 :: rest) [] (by simp) hid, List.nil_append, List.map_map]
    apply List.map_congr_left
    intro c hcm
    simp [hseq c hcm]
  unfold collateEmit
  rw [hseqd, collatedChains_const _ _ (by simp)]
  rw [if_neg (by simp)]
  rw [exConcatMap_singleton]
  show exConcatMap [(⟨c0 :: rest⟩ : PdbModel)] _ = _
  rw [exConcatMap_singleton]
  show (match (c0 :: rest).find? (fun c => c.id = c0.id) with
    | none => Except.error PyErr.keyError
    | some ch => Except.ok (ch.residues.filterMap fun (r : PdbResidue) =>
        (tto r.resname).map fun code =>
          pySorted identLe (((c0 :: rest).map PdbChain.id).map fun i => mkIdent code i r.resid)))
    = _
  rw [List.find?_cons_of_pos _ (by simp)]
  show Except.ok (c0.residues.filterMap fun (r : PdbResidue) =>
      (tto r.resname).map fun code =>
        pySorted identLe (((c0 :: rest).map PdbChain.id).map fun i => mkIdent code i r.resid))
    = _
  simp only [List.map_map]
  rfl

/-- C1: for a single-model structure whose chains (with distinct ids)
all share one one-letter sequence, multimer-mode residue
identification — both `get_residue_list` and `get_foldx_sequence` —
emits exactly one homomer group tuple per recognized residue of the
template (first) chain, each of size `N` (the number of chains) and
sorted by chain id; unrecognized residues are skipped.  In
non-multimer mode, for any structure, every entry `get_residue_list`
emits is a single identifier string and every tuple
`get_foldx_sequence` emits has size 1. -/
theorem get_residue_list_multimer_groups (tto : String → Option Char)
    (s : PdbStructure) (c0 : PdbChain) (rest : List PdbChain)
    (hm : s.models = [⟨c0 :: rest⟩])
    (hid : ((c0 :: rest).map PdbChain.id).Nodup)
    (hseq : ∀ c ∈ c0 :: rest, chainSeq tto c = chainSeq tto c0) :
    (∃ l, l = (c0.residues.filterMap fun r =>
          (tto r.resname).map fun code =>
            pySorted identLe ((c0 :: rest).map fun c => mkIdent code c.id r.resid)) ∧
      get_residue_list tto s true = .ok (l.map ResEntry.tup) ∧
      get_foldx_sequence tto s true = .ok l ∧
      l.length = (chainSeq tto c0).length ∧
      ∀ t ∈ l, t.length = (c0 :: rest).length ∧
        t.Pairwise fun a b => pyCharAt a 1 ≤ pyCharAt b 1) ∧
    (∀ s2 l2, get_residue_list tto s2 false = .ok l2 → ∀ e ∈ l2, ∃ u, e = .str u) ∧
    (∀ s2 l2, get_foldx_sequence tto s2 false = .ok l2 → ∀ t ∈ l2, t.length = 1) := by
  refine ⟨⟨_, rfl, ?_, ?_, ?_, ?_⟩, ?_, ?_⟩
  · -- get_residue_list, multimer mode
    unfold get_residue_list
    rw [hm]
    show (match collateEmit tto [(⟨c0 :: rest⟩ : PdbModel)]
        (sequencesOf tto ⟨c0 :: rest⟩) with
      | .error e => Except.error e
      | .ok ts => Except.ok (ts.map ResEntry.tup)) = _
    rw [collateEmit_homomer tto c0 rest hid hseq]
  · -- get_foldx_sequence, multimer mode
    unfold get_foldx_sequence
    rw [hm]
    show collateEmit tto [(⟨c0 :: rest⟩ : PdbModel)] (sequencesOf tto ⟨c0 :: rest⟩) = _
    rw [collateEmit_homomer tto c0 rest hid hseq]
  · -- one tuple per recognized template residue
    exact length_filterMap_map c0.residues (fun r => tto r.resname) _
  · -- tuple size and chain-id sortedness
    intro t ht
    rcases List.mem_filterMap.mp ht with ⟨r, -, hopt⟩
    rcases Option.map_eq_some'.mp hopt with ⟨code, -, hteq⟩
    subst hteq
    constructor
    · rw [pySorted_length, List.length_map]
    · exact (pySorted_pairwise identLe_trans identLe_total _).imp
        fun {a b} h => of_decide_eq_true h
  · -- non-multimer get_residue_list: plain strings
    intro s2 l2 h
    unfold get_residue_list at h
    rcases hs2 : s2.models with - | ⟨m2, ms⟩
    · rw [hs2] at h
      exact absurd h (by simp)
    · rw [hs2] at h
      have h2 : Except.ok (m2.chains.flatMap fun ch =>
          ch.residues.filterMap fun r =>
            (tto r.resname).map fun code => ResEntry.str (mkIdent code ch.id r.resid))
          = Except.ok l2 := h
      injection h2 with h3
      subst h3
      intro e he
      rcases List.mem_flatMap.mp he with ⟨ch, -, he2⟩
      rcases List.mem_filterMap.mp he2 with ⟨r, -, hopt⟩
      rcases Option.map_eq_some'.mp hopt with ⟨code, -, hteq⟩
      exact ⟨mkIdent code ch.id r.resid, hteq.symm⟩
  · -- non-multimer get_foldx_sequence: singleton tuples
    intro s2 l2 h
    have h2 : Except.ok (s2.models.flatMap fun m2 =>
        m2.chains.flatMap fun ch =>
          ch.residues.filterMap fun r =>
            (tto r.resname).map fun code => [mkIdent code ch.id r.resid])
        = Except.ok l2 := h
    injection h2 with h3
    subst h3
    intro t ht
    rcases List.mem_flatMap.mp ht with ⟨m2, -, ht2⟩
    rcases List.mem_flatMap.mp ht2 with ⟨ch, -, ht3⟩
    rcases List.mem_filterMap.mp ht3 with ⟨r, -, hopt⟩
    rcases Option.map_eq_some'.mp hopt with ⟨code, -, hteq⟩
    rw [← hteq]
    rfl

/-- Witness for C1: on the homodimer `structAB` (chains `A`, `B`,
common sequence `AG`, one unrecognized residue in the template chain)
the multimer output is one sorted pair per recognized residue:
`[("AA1", "AB1"), ("GA2", "GB2")]`. -/
theorem get_residue_list_multimer_groups_witness :
    ((∃ l, l = (chainA.residues.filterMap fun r =>
          (ttoStd r.resname).map fun code =>
            pySorted identLe ((chainA :: [chainB]).map fun c => mkIdent code c.id r.resid)) ∧
      get_residue_list ttoStd structAB true = .ok (l.map ResEntry.tup) ∧
      get_foldx_sequence ttoStd structAB true = .ok l ∧
      l.length = (chainSeq ttoStd chainA).length ∧
      ∀ t ∈ l, t.length = (chainA :: [chainB]).length ∧
        t.Pairwise fun a b => pyCharAt a 1 ≤ pyCharAt b 1) ∧
    (∀ s2 l2, get_residue_list ttoStd s2 false = .ok l2 → ∀ e ∈ l2, ∃ u, e = .str u) ∧
    (∀ s2 l2, get_foldx_sequence ttoStd s2 false = .ok l2 → ∀ t ∈ l2, t.length = 1)) ∧
    get_residue_list ttoStd structAB true
      = .ok [.tup ["AA1", "AB1"], .tup ["GA2", "GB2"]] :=
  ⟨get_residue_list_multimer_groups ttoStd structAB chainA [chainB] rfl
    (by decide) (by decide), rfl⟩

/-- Witness instantiating `safe_cp_behavior` at concrete flag values. -/
theorem safe_cp_behavior_witness :
    safe_cp false true true true true true true = .error .ioError ∧
    safe_cp false true true true false true true = .ok .copied ∧
    safe_cp true false false true true true true = .ok .nothing :=
  ⟨safe_cp_behavior.1 true true, safe_cp_behavior.2.1 true,
    safe_cp_behavior.2.2 false false true true true true⟩
